import Mathlib

/-!
# Verification of the arrow-showcase date/time helper library

A shallow embedding in Lean 4 of the Python helper library built on the
Arrow date-time package (`src/utils/`): calendar helpers
(`date_helpers.py`), the reminder / task scheduling store
(`schedulers.py`), the formatter registry (`formatters.py`) and the
timezone helpers (`timezone_helpers.py`).

Modelling conventions:

* An instant is modelled at the granularity each function actually uses.
  Where a function only compares and shifts absolute times (the reminder
  store), an instant is its POSIX timestamp as an `Int` (seconds); a
  calendar-day shift on a UTC instant is +86400 seconds, a week +604800.
* Where a function works with calendar fields (`get_quarter_dates`), an
  instant is a record of year/month/day/time fields.
* Where only the day and the weekday matter (`next_business_day`,
  `add_weekly_task`), a date carries an `Int` day number; day number 0 is
  taken to be a Monday, so Python's `weekday()` (Monday = 0) is `day % 7`.
* The Arrow library itself is the external, fully tested primitive the
  repository's spec assumes; operations of Arrow that the helpers merely
  pass through (pattern formatting, the IANA zone database, calendar
  shifts inside `get_date_range`) enter the model as parameters.
* Python functions that raise become `Except String`; Python's impure
  `arrow.utcnow()` / `arrow.now(tz)` become an explicit `now` argument.
-/

namespace ArrowShowcase

/-! ## Calendar basics (date_helpers.py) -/

/-- A calendar date as a day number; day 0 is a Monday.
Python's `date.weekday()` (Monday = 0 .. Sunday = 6) is `d % 7`. -/
def weekdayOf (d : Int) : Int := d % 7

/-- `is_business_day(date)`: weekday Monday..Friday, i.e. `weekday() < 5`. -/
def is_business_day (d : Int) : Bool := weekdayOf d < 5

/-- The `while not is_business_day: shift(days=1)` loop of
`next_business_day`, unrolled on fuel (7 is more than enough: a business
day occurs within any 3 consecutive days' reach). -/
def nextBusinessAux : Nat → Int → Int
  | 0, d => d
  | n + 1, d => if is_business_day d then d else nextBusinessAux n (d + 1)

/-- `next_business_day(date)`: start at `date + 1` day and advance until a
business day. -/
def next_business_day (d : Int) : Int := nextBusinessAux 7 (d + 1)

/-- A calendar instant with explicit year/month/day and time-of-day
fields, as used by `arrow.get(year, month, day)` and `.ceil('month')`. -/
structure CalDT where
  year : Int
  month : Int
  day : Int
  hour : Nat
  minute : Nat
  second : Nat
  micro : Nat
  deriving Repr, DecidableEq

/-- Gregorian leap-year rule (provided by the Arrow primitive's
calendar). -/
def isLeapYear (y : Int) : Bool := (y % 4 == 0 && y % 100 != 0) || y % 400 == 0

/-- Number of days of month `m` of year `y` (Gregorian calendar). -/
def daysInMonth (y m : Int) : Int :=
  if m == 2 then (if isLeapYear y then 29 else 28)
  else if m == 4 || m == 6 || m == 9 || m == 11 then 30
  else 31

/-- `arrow.get(year, month, day)`: midnight at the start of that day. -/
def arrowGetYMD (y m d : Int) : CalDT := ⟨y, m, d, 0, 0, 0, 0⟩

/-- `.ceil('month')`: the last microsecond of the instant's month. -/
def ceilMonth (t : CalDT) : CalDT :=
  ⟨t.year, t.month, daysInMonth t.year t.month, 23, 59, 59, 999999⟩

/-- `get_quarter_dates(year, quarter)` from `date_helpers.py`: raises
`ValueError` unless `quarter in [1, 2, 3, 4]`; else returns
`(arrow.get(year, start_month, 1), arrow.get(year, end_month, 1).ceil('month'))`
with `start_month = (quarter-1)*3+1`, `end_month = start_month+2`. -/
def get_quarter_dates (year quarter : Int) : Except String (CalDT × CalDT) :=
  if ¬(quarter = 1 ∨ quarter = 2 ∨ quarter = 3 ∨ quarter = 4) then
    Except.error "Quarter must be 1, 2, 3, or 4"
  else
    let startMonth := (quarter - 1) * 3 + 1
    let endMonth := startMonth + 2
    Except.ok (arrowGetYMD year startMonth 1, ceilMonth (arrowGetYMD year endMonth 1))

/-! ## get_date_range (date_helpers.py)

The four shift operations (`shift(days=1)`, `shift(weeks=1)`,
`shift(months=1)`, `shift(years=1)`) are Arrow-primitive calendar
arithmetic; they enter the model as parameters `sD sW sM sY` on an
abstract instant type (here `Int`, ordered by absolute time). The Python
`while` loop becomes a fuel-indexed recursion; the fuel only matters for
runs long enough to exhaust it, never for the error path. -/

/-- The loop body of `get_date_range`: while `current <= end`, append
`current` and advance by one unit of `step`; an unrecognized `step`
raises `ValueError(f"Invalid step: {step}")` from inside the loop. -/
def getDateRangeAux (sD sW sM sY : Int → Int) (step : String) (endI : Int) :
    Nat → Int → List Int → Except String (List Int)
  | 0, _, acc => Except.ok acc.reverse
  | fuel + 1, current, acc =>
    if current ≤ endI then
      if step = "day" then getDateRangeAux sD sW sM sY step endI fuel (sD current) (current :: acc)
      else if step = "week" then getDateRangeAux sD sW sM sY step endI fuel (sW current) (current :: acc)
      else if step = "month" then getDateRangeAux sD sW sM sY step endI fuel (sM current) (current :: acc)
      else if step = "year" then getDateRangeAux sD sW sM sY step endI fuel (sY current) (current :: acc)
      else Except.error ("Invalid step: " ++ step)
    else Except.ok acc.reverse

/-- `get_date_range(start, end, step)` from `date_helpers.py`. -/
def get_date_range (sD sW sM sY : Int → Int) (fuel : Nat)
    (start endI : Int) (step : String) : Except String (List Int) :=
  getDateRangeAux sD sW sM sY step endI fuel start []

/-! ## The Reminder store (schedulers.py)

Reminder instants are created against `arrow.utcnow()`; on a UTC instant
Arrow's `shift(days=1)` adds exactly 86400 seconds and `shift(weeks=1)`
exactly 604800, so instants here are POSIX timestamps (`Int`, seconds)
and comparison is comparison of absolute time. Python's mutation of the
record dicts in place becomes explicit state passing; the `due` list of
`check_due` holds the records as mutated (Python appends a reference to
the dict and then mutates it). -/

/-- One reminder record, the dict built by `Reminder.add`. -/
structure Rem where
  title : String
  remind_at : Int
  recurring : Bool
  interval : Option String
  created_at : Int
  active : Bool
  deriving Repr, DecidableEq

/-- Arrow `shift(days=n)` on a UTC instant. -/
def shiftDays (t : Int) (n : Int) : Int := t + n * 86400

/-- Arrow `shift(weeks=n)` on a UTC instant. -/
def shiftWeeks (t : Int) (n : Int) : Int := t + n * 604800

/-- The guard of the `check_due` loop:
`reminder['active'] and reminder['remind_at'] <= now`. -/
def isDue (now : Int) (r : Rem) : Bool := r.active && decide (r.remind_at ≤ now)

/-- The mutation `check_due` applies to a due record: non-recurring
records are deactivated; recurring ones advance `remind_at` by one day
(`interval == 'daily'`) or one week (`interval == 'weekly'`); any other
interval falls through both `if` branches and the record is left as
is. -/
def dueUpdate (r : Rem) : Rem :=
  if ¬ r.recurring then { r with active := false }
  else if r.interval == some "daily" then { r with remind_at := shiftDays r.remind_at 1 }
  else if r.interval == some "weekly" then { r with remind_at := shiftWeeks r.remind_at 1 }
  else r

/-- The `for reminder in self.reminders` loop of `check_due`, returning
the due list and the store after the in-place mutations. -/
def checkDueList (now : Int) : List Rem → List Rem × List Rem
  | [] => ([], [])
  | r :: rs =>
    if isDue now r then
      let r' := dueUpdate r
      let p := checkDueList now rs
      (r' :: p.1, r' :: p.2)
    else
      let p := checkDueList now rs
      (p.1, r :: p.2)

/-- The `for` loop of `cancel`: deactivate the first active record whose
title matches and stop; report whether one was found. -/
def cancelList (title : String) : List Rem → Bool × List Rem
  | [] => (false, [])
  | r :: rs =>
    if r.title == title && r.active then (true, { r with active := false } :: rs)
    else
      let p := cancelList title rs
      (p.1, r :: p.2)

/-- The `Reminder` class: its state is the list `self.reminders`. -/
structure Reminder where
  reminders : List Rem
  deriving Repr, DecidableEq

/-- `Reminder.add`: appends a new record with `active=True`;
`created_at` is `arrow.utcnow()`, passed explicitly. -/
def Reminder.add (s : Reminder) (title : String) (remind_at : Int)
    (recurring : Bool) (interval : Option String) (now : Int) : Reminder :=
  ⟨s.reminders ++ [⟨title, remind_at, recurring, interval, now, true⟩]⟩

/-- `Reminder.list_active`: the active records, in storage order. -/
def Reminder.list_active (s : Reminder) : List Rem :=
  s.reminders.filter (fun r => r.active)

/-- `Reminder.check_due`: `arrow.utcnow()` passed explicitly as `now`;
returns the due list and the mutated store. -/
def Reminder.check_due (s : Reminder) (now : Int) : List Rem × Reminder :=
  let p := checkDueList now s.reminders
  (p.1, ⟨p.2⟩)

/-- `Reminder.cancel`: returns whether a record was cancelled, and the
store afterwards. -/
def Reminder.cancel (s : Reminder) (title : String) : Bool × Reminder :=
  let p := cancelList title s.reminders
  (p.1, ⟨p.2⟩)

/-! ## TaskScheduler.add_weekly_task (schedulers.py)

`add_weekly_task` works on `arrow.now(timezone)` through `weekday()`,
`replace(hour=..., minute=..., second=0)` and `shift(days=...)`, so its
instants are local wall-clock values: a day number plus time-of-day
fields. Day number 0 is a Monday (consistent with `weekdayOf`), so
Python's `weekday()` is `day % 7`. `replace` keeps the date and the
microsecond; `shift(days=d)` moves the day number. -/

/-- A local wall-clock instant: calendar day number and time of day. -/
structure LocalDT where
  day : Int
  hour : Nat
  minute : Nat
  second : Nat
  micro : Nat
  deriving Repr, DecidableEq

/-- Python `weekday()`: Monday = 0 .. Sunday = 6. -/
def LocalDT.weekday (t : LocalDT) : Int := weekdayOf t.day

/-- Arrow `replace(hour=h, minute=m, second=0)`: same day, same
microsecond. -/
def LocalDT.replaceHM (t : LocalDT) (h m : Nat) : LocalDT :=
  { t with hour := h, minute := m, second := 0 }

/-- Arrow `shift(days=d)` on a wall-clock instant. -/
def LocalDT.shiftD (t : LocalDT) (d : Int) : LocalDT := { t with day := t.day + d }

/-- Absolute order on wall-clock instants (microseconds on one zone's
clock), used to say a candidate run time is still in the future. -/
def LocalDT.toTicks (t : LocalDT) : Int :=
  (((t.day * 24 + (t.hour : Int)) * 60 + (t.minute : Int)) * 60 + (t.second : Int))
      * 1000000 + (t.micro : Int)

/-- The `next_run` computation of `TaskScheduler.add_weekly_task`:
`next_run = now.replace(hour, minute, second=0)`,
`days_ahead = day - now.weekday()`, `+7` if `days_ahead <= 0`, then
`next_run.shift(days=days_ahead)`. -/
def add_weekly_task_next_run (now : LocalDT) (day : Int) (h m : Nat) : LocalDT :=
  let next_run := now.replaceHM h m
  let days_ahead := day - now.weekday
  let days_ahead := if days_ahead ≤ 0 then days_ahead + 7 else days_ahead
  next_run.shiftD days_ahead

/-- One task record of `TaskScheduler` (the `task: Callable` entry of the
Python dict carries no scheduling information and is not modelled;
`kind` is the dict's `'type'` key, `'daily'` or `'weekly'`). -/
structure Task where
  name : String
  kind : String
  day : Option Int
  hour : Nat
  minute : Nat
  timezone : String
  next_run : LocalDT
  active : Bool
  deriving Repr, DecidableEq

/-- `TaskScheduler.add_weekly_task`: appends a weekly task record whose
`next_run` is computed once from `arrow.now(timezone)` (passed
explicitly as `now`). -/
def TaskScheduler.add_weekly_task (tasks : List Task) (name : String)
    (day : Int) (h m : Nat) (tz : String) (now : LocalDT) : List Task :=
  tasks ++ [⟨name, "weekly", some day, h, m, tz, add_weekly_task_next_run now day h m, true⟩]

/-! ## convert_timezone (timezone_helpers.py)

An Arrow instant always carries a tzinfo, modelled as a zone name; the
zone database maps a name to its UTC offset in seconds, entering the
model as the parameter `off`. Arrow's `.to(tz)` keeps the absolute
moment and changes the zone; `.replace(tzinfo=tz)` keeps the wall-clock
reading and reinterprets it in the new zone, so the absolute moment
moves by the difference of the two offsets. -/

/-- A timezone-aware instant: POSIX timestamp plus attached zone name. -/
structure TZInstant where
  ts : Int
  tzName : String
  deriving Repr, DecidableEq

/-- `dt.timestamp()`. -/
def TZInstant.timestamp (i : TZInstant) : Int := i.ts

/-- Arrow `dt.replace(tzinfo=tz)` under the zone database `off`: the
wall-clock reading `ts + off(old zone)` is kept and re-read in `tz`. -/
def TZInstant.replaceTz (off : String → Int) (i : TZInstant) (tz : String) : TZInstant :=
  ⟨i.ts + off i.tzName - off tz, tz⟩

/-- Arrow `dt.to(tz)`: same absolute moment, new zone. -/
def TZInstant.toTz (i : TZInstant) (tz : String) : TZInstant := ⟨i.ts, tz⟩

/-- `convert_timezone(dt, from_tz, to_tz)` from `timezone_helpers.py`:
re-tag via `replace` when `str(dt.tzinfo) != from_tz` (Arrow instants
always have a tzinfo, so the `is None` disjunct never fires), then
`.to(to_tz)`. -/
def convert_timezone (off : String → Int) (dt : TZInstant)
    (from_tz to_tz : String) : TZInstant :=
  let dt := if dt.tzName ≠ from_tz then dt.replaceTz off from_tz else dt
  dt.toTz to_tz

/-! ## Python dicts, get_world_times, DateFormatter

A Python dict preserves insertion order and assignment overwrites in
place, modelled as an association list with an insert-or-overwrite
operation. -/

/-- Python dict assignment `m[k] = v`: overwrite in place if the key is
present, else append. -/
def dictInsert (m : List (String × String)) (k v : String) : List (String × String) :=
  if m.any (fun p => p.1 == k) then m.map (fun p => if p.1 == k then (k, v) else p)
  else m ++ [(k, v)]

/-- One iteration of the `get_world_times` loop: `try` the conversion
(`off tz`, `None` when `dt.to(tz)` raises) and store the formatted local
time; on failure store `f"Error: {str(e)}"`. -/
def worldStep (off : String → Option Int) (fmt : Int → Int → String)
    (errStr : String → String) (ts : Int) (m : List (String × String))
    (tz : String) : List (String × String) :=
  match off tz with
  | some o => dictInsert m tz (fmt ts o)
  | none => dictInsert m tz ("Error: " ++ errStr tz)

/-- `get_world_times(dt, timezones)` from `timezone_helpers.py`. The
zone database is `off` (an unknown zone name makes `dt.to(tz)` raise,
hence `Option`); `fmt ts o` is the Arrow rendering
`converted.format('YYYY-MM-DD HH:mm:ss ZZ')` of the instant `ts` seen at
offset `o`; `errStr` is the raised exception's `str(e)`. -/
def get_world_times (off : String → Option Int) (fmt : Int → Int → String)
    (errStr : String → String) (ts : Int) (timezones : List String) :
    List (String × String) :=
  timezones.foldl (worldStep off fmt errStr ts) []

/-- The value `get_world_times` stores for a given zone: the formatted
local time on success, the error-description string on failure. -/
def worldVal (off : String → Option Int) (fmt : Int → Int → String)
    (errStr : String → String) (ts : Int) (tz : String) : String :=
  match off tz with
  | some o => fmt ts o
  | none => "Error: " ++ errStr tz

/-- The template dict built by `DateFormatter.__init__`. -/
def defaultTemplates : List (String × String) :=
  [("short", "YYYY-MM-DD"),
   ("long", "MMMM DD, YYYY"),
   ("time", "HH:mm:ss"),
   ("datetime", "YYYY-MM-DD HH:mm:ss"),
   ("iso", "YYYY-MM-DDTHH:mm:ssZZ"),
   ("filename", "YYYYMMDD_HHmmss"),
   ("log", "YYYY-MM-DD HH:mm:ss"),
   ("display", "MMMM DD, YYYY [at] h:mm A")]

/-- The `DateFormatter` class: its state is the template dict. -/
structure DateFormatter where
  templates : List (String × String)
  deriving Repr, DecidableEq

/-- `DateFormatter()`: a fresh formatter holds the default templates. -/
def DateFormatter.new : DateFormatter := ⟨defaultTemplates⟩

/-- `DateFormatter.format(dt, template)`: `ValueError` when the name is
absent, else Arrow's `dt.format(pattern)`, modelled by the external
parameter `fmt`. -/
def DateFormatter.format (fmt : Int → String → String) (f : DateFormatter)
    (dt : Int) (template : String) : Except String String :=
  match f.templates.lookup template with
  | none => Except.error ("Unknown template: " ++ template)
  | some p => Except.ok (fmt dt p)

/-- `DateFormatter.add_template(name, format_string)`: dict assignment,
insert or overwrite. -/
def DateFormatter.add_template (f : DateFormatter) (name pattern : String) :
    DateFormatter :=
  ⟨dictInsert f.templates name pattern⟩

/-- `DateFormatter.list_templates()`: the registered names. -/
def DateFormatter.list_templates (f : DateFormatter) : List String :=
  f.templates.map Prod.fst

end ArrowShowcase

namespace ArrowShowcase

/-! ## Theorems for the calendar claims -/

/-- **C8.** For every date, `next_business_day` returns a business day
(weekday 0-4) strictly after the date, reached within at most 3 one-day
steps (so the result is at most `date + 3`); for a Friday (weekday 4) the
result is exactly `date + 3`, the following Monday (weekday 0). -/
theorem next_business_day_spec (d : Int) :
    is_business_day (next_business_day d) = true ∧
    d < next_business_day d ∧
    next_business_day d ≤ d + 3 ∧
    (weekdayOf d = 4 →
      next_business_day d = d + 3 ∧ weekdayOf (next_business_day d) = 0) := by
  have h7 : (0:Int) < 7 := by norm_num
  have h1 := Int.emod_nonneg d (by norm_num : (7:Int) ≠ 0)
  have h2 := Int.emod_lt_of_pos d h7
  have e1 : (d + 1) % 7 = (d % 7 + 1) % 7 := by omega
  have e2 : (d + 2) % 7 = (d % 7 + 2) % 7 := by omega
  have e3 : (d + 3) % 7 = (d % 7 + 3) % 7 := by omega
  simp only [next_business_day, nextBusinessAux, is_business_day, weekdayOf,
    decide_eq_true_eq]
  split_ifs with hb1 hb2 hb3 <;>
    constructor <;> try constructor
  all_goals try constructor
  all_goals omega

/-- Witness for `next_business_day_spec`: day 4 is a Friday and its next
business day is day 7, the following Monday. -/
theorem next_business_day_spec_witness :
    weekdayOf (4 : Int) = 4 ∧ next_business_day 4 = 7 ∧ weekdayOf (7 : Int) = 0 := by
  have h := (next_business_day_spec 4).2.2.2 (by decide)
  refine ⟨by decide, ?_, by decide⟩
  rw [h.1]
  norm_num

/-- **C6.** `get_quarter_dates` fails with `ValueError` exactly when the
quarter is outside 1..4; otherwise the start is midnight on the first day
of month `(quarter-1)*3+1` of the year (so quarter 1 starts January 1)
and the end is the last microsecond of the last day of month
`3*quarter`. -/
theorem get_quarter_dates_spec (y q : Int) :
    (¬(1 ≤ q ∧ q ≤ 4) →
      get_quarter_dates y q = Except.error "Quarter must be 1, 2, 3, or 4") ∧
    (1 ≤ q → q ≤ 4 →
      get_quarter_dates y q =
        Except.ok (⟨y, (q - 1) * 3 + 1, 1, 0, 0, 0, 0⟩,
                   ⟨y, 3 * q, daysInMonth y (3 * q), 23, 59, 59, 999999⟩)) := by
  constructor
  · intro h
    unfold get_quarter_dates
    rw [if_pos (by omega)]
  · intro h1 h2
    have hq : q = 1 ∨ q = 2 ∨ q = 3 ∨ q = 4 := by omega
    rcases hq with rfl | rfl | rfl | rfl <;>
      simp [get_quarter_dates, arrowGetYMD, ceilMonth]

/-- Witness for `get_quarter_dates_spec`: quarter 1 of 2024 runs from
2024-01-01 00:00 to 2024-03-31 23:59:59.999999, and quarter 5 is
rejected. -/
theorem get_quarter_dates_spec_witness :
    get_quarter_dates 2024 1 =
      Except.ok (⟨2024, 1, 1, 0, 0, 0, 0⟩, ⟨2024, 3, 31, 23, 59, 59, 999999⟩) ∧
    get_quarter_dates 2024 5 = Except.error "Quarter must be 1, 2, 3, or 4" := by
  constructor
  · have h := (get_quarter_dates_spec 2024 1).2 (by norm_num) (by norm_num)
    rw [h]
    norm_num [daysInMonth, isLeapYear]
  · exact (get_quarter_dates_spec 2024 5).1 (by norm_num)

/-- **C4, counterexample.** With `start > end` and an unrecognized step,
`get_date_range` does not fail: the `while current <= end` guard is false
at entry, so the step name is never inspected and the empty list is
returned. Here `start = 1 > 0 = end` with step `"hour"`. -/
theorem get_date_range_claim_counterexample :
    ("hour" ≠ "day" ∧ "hour" ≠ "week" ∧ "hour" ≠ "month" ∧ "hour" ≠ "year") ∧
    get_date_range id id id id 5 1 0 "hour" = Except.ok [] := by
  exact ⟨by decide, rfl⟩

/-- **C4, amended.** For an unrecognized step, `get_date_range` fails
with `ValueError("Invalid step: ...")` whenever `start <= end` (the loop
body runs at least once); when `start > end` it returns the empty list
without error. -/
theorem get_date_range_invalid_step (sD sW sM sY : Int → Int) (fuel : Nat)
    (start endI : Int) (step : String)
    (hd : step ≠ "day") (hw : step ≠ "week") (hm : step ≠ "month") (hy : step ≠ "year") :
    (start ≤ endI → 1 ≤ fuel →
      get_date_range sD sW sM sY fuel start endI step =
        Except.error ("Invalid step: " ++ step)) ∧
    (endI < start →
      get_date_range sD sW sM sY fuel start endI step = Except.ok []) := by
  constructor
  · intro hle hfuel
    obtain ⟨f, rfl⟩ : ∃ f, fuel = f + 1 := ⟨fuel - 1, by omega⟩
    simp [get_date_range, getDateRangeAux, hle, hd, hw, hm, hy]
  · intro hlt
    cases fuel with
    | zero => rfl
    | succ f => simp [get_date_range, getDateRangeAux, not_le.mpr hlt]

/-! ### Reminder store helper lemmas -/

/-- The due list built by the `check_due` loop is exactly the due records
in storage order, each as mutated. -/
theorem checkDueList_fst (now : Int) (st : List Rem) :
    (checkDueList now st).1 = (st.filter (isDue now)).map dueUpdate := by
  induction st with
  | nil => rfl
  | cons r rs ih =>
    cases hr : isDue now r <;> simp [checkDueList, hr, ih]

/-- The store after the `check_due` loop: each record is updated exactly
when it was due, in place. -/
theorem checkDueList_snd (now : Int) (st : List Rem) :
    (checkDueList now st).2
      = st.map (fun r => if isDue now r then dueUpdate r else r) := by
  induction st with
  | nil => rfl
  | cons r rs ih =>
    cases hr : isDue now r <;> simp [checkDueList, hr, ih]

/-- `dueUpdate` touches only `active` and `remind_at`. -/
theorem dueUpdate_keeps (r : Rem) :
    (dueUpdate r).title = r.title ∧ (dueUpdate r).recurring = r.recurring ∧
    (dueUpdate r).interval = r.interval ∧ (dueUpdate r).created_at = r.created_at := by
  unfold dueUpdate
  split_ifs <;> exact ⟨rfl, rfl, rfl, rfl⟩

/-- A recurring record whose interval is neither `'daily'` nor
`'weekly'` falls through every branch of `dueUpdate` unchanged. -/
theorem dueUpdate_id_of_unknown (r : Rem) (hrec : r.recurring = true)
    (hd : r.interval ≠ some "daily") (hw : r.interval ≠ some "weekly") :
    dueUpdate r = r := by
  simp [dueUpdate, hrec, hd, hw]

/-- The `cancel` loop keeps the store's length and every field of every
record other than `active`. -/
theorem cancelList_preserves (title : String) (st : List Rem) :
    (cancelList title st).2.length = st.length ∧
    (∀ i : Nat, ∀ r r' : Rem, st[i]? = some r →
      (cancelList title st).2[i]? = some r' →
      r'.title = r.title ∧ r'.remind_at = r.remind_at ∧ r'.recurring = r.recurring ∧
      r'.interval = r.interval ∧ r'.created_at = r.created_at) := by
  induction st with
  | nil =>
    refine ⟨rfl, ?_⟩
    intro i r r' h1 _
    simp at h1
  | cons x xs ih =>
    by_cases h : (x.title == title && x.active) = true
    · refine ⟨by simp [cancelList, h], ?_⟩
      intro i r r' h1 h2
      simp only [cancelList, if_pos h] at h2
      cases i with
      | zero =>
        simp only [List.getElem?_cons_zero, Option.some_inj] at h1 h2
        subst h1
        subst h2
        exact ⟨rfl, rfl, rfl, rfl, rfl⟩
      | succ n =>
        simp only [List.getElem?_cons_succ] at h1 h2
        rw [h1] at h2
        cases h2
        exact ⟨rfl, rfl, rfl, rfl, rfl⟩
    · refine ⟨by simp [cancelList, h, ih.1], ?_⟩
      intro i r r' h1 h2
      simp only [cancelList, if_neg h] at h2
      cases i with
      | zero =>
        simp only [List.getElem?_cons_zero, Option.some_inj] at h1 h2
        subst h1
        subst h2
        exact ⟨rfl, rfl, rfl, rfl, rfl⟩
      | succ n =>
        simp only [List.getElem?_cons_succ] at h1 h2
        exact ih.2 n r r' h1 h2

/-! ### Reminder store claims -/

/-- **C2.** `check_due` returns exactly the active records whose trigger
is `<= now`, in storage order; in the resulting store every due record
is updated and every other record is untouched; a due non-recurring
record is deactivated; a due recurring record advances its trigger by
exactly one day (`'daily'`, +86400 s) or one week (`'weekly'`,
+604800 s) and stays active. -/
theorem check_due_spec (now : Int) (st : List Rem) :
    ((Reminder.mk st).check_due now).1 = (st.filter (isDue now)).map dueUpdate ∧
    ((Reminder.mk st).check_due now).2.reminders
      = st.map (fun r => if isDue now r then dueUpdate r else r) ∧
    (∀ r : Rem, isDue now r = true ↔ (r.active = true ∧ r.remind_at ≤ now)) ∧
    (∀ r : Rem, r.recurring = false →
      dueUpdate r = { r with active := false }) ∧
    (∀ r : Rem, r.recurring = true → r.interval = some "daily" →
      dueUpdate r = { r with remind_at := r.remind_at + 86400 } ∧
        (dueUpdate r).active = r.active) ∧
    (∀ r : Rem, r.recurring = true → r.interval = some "weekly" →
      dueUpdate r = { r with remind_at := r.remind_at + 604800 } ∧
        (dueUpdate r).active = r.active) := by
  refine ⟨checkDueList_fst now st, checkDueList_snd now st, ?_, ?_, ?_, ?_⟩
  · intro r
    simp [isDue]
  · intro r h
    simp [dueUpdate, h]
  · intro r h1 h2
    constructor
    · simp [dueUpdate, h1, h2, shiftDays]
    · simp [dueUpdate, h1, h2]
  · intro r h1 h2
    constructor
    · simp [dueUpdate, h1, h2, shiftWeeks]
    · simp [dueUpdate, h1, h2]

/-- Witness for `check_due_spec` on a two-record store at `now = 10`: the
past-due non-recurring record fires and is deactivated, the future daily
record is untouched; `dueUpdate` on a daily record adds 86400 s. -/
theorem check_due_spec_witness :
    ((Reminder.mk [⟨"a", 3, false, none, 0, true⟩,
        ⟨"b", 100, true, some "daily", 0, true⟩]).check_due 10).1
      = [⟨"a", 3, false, none, 0, false⟩] ∧
    ((Reminder.mk [⟨"a", 3, false, none, 0, true⟩,
        ⟨"b", 100, true, some "daily", 0, true⟩]).check_due 10).2.reminders
      = [⟨"a", 3, false, none, 0, false⟩, ⟨"b", 100, true, some "daily", 0, true⟩] ∧
    dueUpdate ⟨"b", 90, true, some "daily", 0, true⟩
      = ⟨"b", 90 + 86400, true, some "daily", 0, true⟩ := by
  have h := check_due_spec 10
    [⟨"a", 3, false, none, 0, true⟩, ⟨"b", 100, true, some "daily", 0, true⟩]
  refine ⟨?_, ?_, ?_⟩
  · rw [h.1]
    rfl
  · rw [h.2.1]
    rfl
  · exact (h.2.2.2.2.1 ⟨"b", 90, true, some "daily", 0, true⟩ rfl rfl).1

/-- **C5.** No operation of the reminder store removes a record: `add`
grows the store by one and keeps every existing record at its position;
`list_active` only reads (a sublist of storage); `check_due` and `cancel`
keep the length and every identifying field of every record, modifying
only `active` / `remind_at`; in particular deactivated records remain
present. -/
theorem reminder_store_preservation (st : List Rem) (title : String)
    (remind_at : Int) (recurring : Bool) (interval : Option String)
    (now created : Int) :
    ((Reminder.mk st).add title remind_at recurring interval created).reminders.length
        = st.length + 1 ∧
    (∀ i : Nat, i < st.length →
      ((Reminder.mk st).add title remind_at recurring interval created).reminders[i]?
        = st[i]?) ∧
    (Reminder.mk st).list_active.Sublist st ∧
    ((Reminder.mk st).check_due now).2.reminders.length = st.length ∧
    (∀ i : Nat, ∀ r r' : Rem, st[i]? = some r →
      ((Reminder.mk st).check_due now).2.reminders[i]? = some r' →
      r'.title = r.title ∧ r'.recurring = r.recurring ∧
      r'.interval = r.interval ∧ r'.created_at = r.created_at) ∧
    ((Reminder.mk st).cancel title).2.reminders.length = st.length ∧
    (∀ i : Nat, ∀ r r' : Rem, st[i]? = some r →
      ((Reminder.mk st).cancel title).2.reminders[i]? = some r' →
      r'.title = r.title ∧ r'.remind_at = r.remind_at ∧ r'.recurring = r.recurring ∧
      r'.interval = r.interval ∧ r'.created_at = r.created_at) := by
  refine ⟨?_, ?_, ?_, ?_, ?_, ?_, ?_⟩
  · simp [Reminder.add]
  · intro i hi
    simp [Reminder.add, List.getElem?_append, hi]
  · exact List.filter_sublist st
  · simp [Reminder.check_due, checkDueList_snd]
  · intro i r r' h1 h2
    simp only [Reminder.check_due, checkDueList_snd, List.getElem?_map, h1,
      Option.map_some', Option.some_inj] at h2
    by_cases hd : isDue now r = true
    · rw [if_pos hd] at h2
      subst h2
      exact dueUpdate_keeps r
    · rw [if_neg hd] at h2
      subst h2
      exact ⟨rfl, rfl, rfl, rfl⟩
  · exact (cancelList_preserves title st).1
  · exact fun i r r' h1 h2 => (cancelList_preserves title st).2 i r r' h1 h2

/-- Witness for `reminder_store_preservation` on the one-record store
`[⟨"t", 3, false, none, 0, true⟩]` with `now = 10`. -/
theorem reminder_store_preservation_witness :
    ((Reminder.mk [⟨"t", 3, false, none, 0, true⟩]).add "t" 1 false none 2).reminders.length
        = 1 + 1 ∧
    ((Reminder.mk [⟨"t", 3, false, none, 0, true⟩]).add "t" 1 false none 2).reminders[0]?
        = [(⟨"t", 3, false, none, 0, true⟩ : Rem)][0]? ∧
    (Reminder.mk [⟨"t", 3, false, none, 0, true⟩]).list_active.Sublist
        [⟨"t", 3, false, none, 0, true⟩] ∧
    ((Reminder.mk [⟨"t", 3, false, none, 0, true⟩]).check_due 10).2.reminders.length = 1 ∧
    ((⟨"t", 3, false, none, 0, false⟩ : Rem).title
        = (⟨"t", 3, false, none, 0, true⟩ : Rem).title ∧
      (⟨"t", 3, false, none, 0, false⟩ : Rem).recurring
        = (⟨"t", 3, false, none, 0, true⟩ : Rem).recurring ∧
      (⟨"t", 3, false, none, 0, false⟩ : Rem).interval
        = (⟨"t", 3, false, none, 0, true⟩ : Rem).interval ∧
      (⟨"t", 3, false, none, 0, false⟩ : Rem).created_at
        = (⟨"t", 3, false, none, 0, true⟩ : Rem).created_at) ∧
    ((Reminder.mk [⟨"t", 3, false, none, 0, true⟩]).cancel "t").2.reminders.length = 1 := by
  have h := reminder_store_preservation [⟨"t", 3, false, none, 0, true⟩] "t" 1 false none 10 2
  exact ⟨h.1, h.2.1 0 (by norm_num), h.2.2.1, h.2.2.2.1,
    h.2.2.2.2.1 0 ⟨"t", 3, false, none, 0, true⟩ ⟨"t", 3, false, none, 0, false⟩ rfl rfl,
    h.2.2.2.2.2.1⟩

/-- **C10.** A due record that is recurring with an interval other than
`'daily'`/`'weekly'` (e.g. `None`) is included in the due list but left
completely unchanged — still active with the same trigger — so every
later `check_due` whose `now` is past the trigger fires it again,
indefinitely. -/
theorem check_due_unknown_interval (r : Rem)
    (hact : r.active = true) (hrec : r.recurring = true)
    (hd : r.interval ≠ some "daily") (hw : r.interval ≠ some "weekly") :
    (∀ now : Int, ∀ st1 st2 : List Rem, r.remind_at ≤ now →
      r ∈ ((Reminder.mk (st1 ++ r :: st2)).check_due now).1 ∧
      ((Reminder.mk (st1 ++ r :: st2)).check_due now).2.reminders
        = (checkDueList now st1).2 ++ r :: (checkDueList now st2).2) ∧
    (∀ ns : List Int, (∀ n ∈ ns, r.remind_at ≤ n) →
      List.foldl (fun s n => (checkDueList n s).2) [r] ns = [r] ∧
      ∀ n ∈ ns, r ∈ (checkDueList n [r]).1) := by
  have hid : dueUpdate r = r := dueUpdate_id_of_unknown r hrec hd hw
  have hdue : ∀ now : Int, r.remind_at ≤ now → isDue now r = true := by
    intro now hle
    simp [isDue, hact, hle]
  have hstep : ∀ now : Int, r.remind_at ≤ now →
      (checkDueList now [r]).2 = [r] ∧ r ∈ (checkDueList now [r]).1 := by
    intro now hle
    constructor
    · simp [checkDueList, hdue now hle, hid]
    · simp [checkDueList, hdue now hle, hid]
  constructor
  · intro now st1 st2 hle
    constructor
    · simp only [Reminder.check_due, checkDueList_fst]
      refine List.mem_map.mpr ⟨r, List.mem_filter.mpr ⟨?_, hdue now hle⟩, hid⟩
      exact List.mem_append.mpr (Or.inr (List.mem_cons_self r st2))
    · simp only [Reminder.check_due, checkDueList_snd, List.map_append, List.map_cons]
      have hfr : (if isDue now r then dueUpdate r else r) = r := by
        rw [hid, ite_self]
      rw [hfr]
  · intro ns hns
    have hfold : ∀ ms : List Int, (∀ n ∈ ms, r.remind_at ≤ n) →
        List.foldl (fun s n => (checkDueList n s).2) [r] ms = [r] := by
      intro ms
      induction ms with
      | nil => intro _; rfl
      | cons n ms ih =>
        intro hms
        rw [List.foldl_cons]
        have h2 : (checkDueList n [r]).2 = [r] := (hstep n (hms n (by simp))).1
        simp only [h2]
        exact ih fun m hm => hms m (by simp [hm])
    exact ⟨hfold ns hns, fun n hn => (hstep n (hns n hn)).2⟩

/-- Witness for `check_due_unknown_interval`: the record
`⟨"t", 0, true, none, 5, true⟩` (recurring, interval `None`, due since
time 0) fires at `now = 7`, and after checks at 7 and 9 the store is
still the same record, which fires again at 9. -/
theorem check_due_unknown_interval_witness :
    (⟨"t", 0, true, none, 5, true⟩ : Rem) ∈
      ((Reminder.mk ([] ++ (⟨"t", 0, true, none, 5, true⟩ : Rem) :: [])).check_due 7).1 ∧
    List.foldl (fun s n => (checkDueList n s).2)
      [(⟨"t", 0, true, none, 5, true⟩ : Rem)] [7, 9]
      = [(⟨"t", 0, true, none, 5, true⟩ : Rem)] ∧
    (⟨"t", 0, true, none, 5, true⟩ : Rem) ∈
      (checkDueList 9 [(⟨"t", 0, true, none, 5, true⟩ : Rem)]).1 := by
  have h := check_due_unknown_interval ⟨"t", 0, true, none, 5, true⟩
    rfl rfl (by decide) (by decide)
  refine ⟨(h.1 7 [] [] (by norm_num)).1, (h.2 [7, 9] (by decide)).1,
    (h.2 [7, 9] (by decide)).2 9 (by simp)⟩

/-- Witness for `get_date_range_invalid_step`: with step `"hour"`, a
nonempty range errors and an empty range returns `[]`. -/
theorem get_date_range_invalid_step_witness :
    get_date_range id id id id 3 0 5 "hour" = Except.error ("Invalid step: " ++ "hour") ∧
    get_date_range id id id id 3 5 0 "hour" = Except.ok [] := by
  refine ⟨?_, ?_⟩
  · exact (get_date_range_invalid_step id id id id 3 0 5 "hour"
      (by decide) (by decide) (by decide) (by decide)).1 (by norm_num) (by norm_num)
  · exact (get_date_range_invalid_step id id id id 3 5 0 "hour"
      (by decide) (by decide) (by decide) (by decide)).2 (by norm_num)

/-! ### Weekly task scheduling (C3) -/

/-- **C3, counterexample.** `now` is a Monday (weekday 0) at 10:00 and
the task is requested for Monday (day 0) at 12:00 — this week's
occurrence (today, 12:00) has not yet passed, yet the computed
`next_run` is day 7, next week's Monday, because `days_ahead <= 0`
triggers the `+7` whenever the target weekday is today or earlier,
regardless of the time of day. -/
theorem add_weekly_task_claim_counterexample :
    (⟨0, 10, 0, 0, 0⟩ : LocalDT).weekday = 0 ∧
    LocalDT.toTicks ⟨0, 10, 0, 0, 0⟩ < LocalDT.toTicks ⟨0, 12, 0, 0, 0⟩ ∧
    add_weekly_task_next_run ⟨0, 10, 0, 0, 0⟩ 0 12 0 = ⟨7, 12, 0, 0, 0⟩ := by
  exact ⟨by decide, by decide, by decide⟩

/-- **C3, amended.** `add_weekly_task` appends a weekly record whose
`next_run` falls on weekday `day` at the given hour and minute with
seconds zeroed, between 1 and 7 days after today; it is this week's
still-future occurrence only when the target weekday is strictly later
in the week than today, and rolls to next week whenever the target
weekday is today or earlier — even if today's occurrence at that
time-of-day has not yet passed. -/
theorem add_weekly_task_spec (tasks : List Task) (name : String) (day : Int)
    (h m : Nat) (tz : String) (now : LocalDT) (h0 : 0 ≤ day) (h7 : day < 7) :
    TaskScheduler.add_weekly_task tasks name day h m tz now
      = tasks ++ [⟨name, "weekly", some day, h, m, tz,
          add_weekly_task_next_run now day h m, true⟩] ∧
    (add_weekly_task_next_run now day h m).weekday = day ∧
    (add_weekly_task_next_run now day h m).hour = h ∧
    (add_weekly_task_next_run now day h m).minute = m ∧
    (add_weekly_task_next_run now day h m).second = 0 ∧
    (add_weekly_task_next_run now day h m).micro = now.micro ∧
    1 ≤ (add_weekly_task_next_run now day h m).day - now.day ∧
    (add_weekly_task_next_run now day h m).day - now.day ≤ 7 ∧
    (now.weekday < day →
      (add_weekly_task_next_run now day h m).day - now.day = day - now.weekday) ∧
    (day ≤ now.weekday →
      (add_weekly_task_next_run now day h m).day - now.day = day - now.weekday + 7) := by
  refine ⟨rfl, ?_, rfl, rfl, rfl, rfl, ?_, ?_, ?_, ?_⟩ <;>
  · simp only [add_weekly_task_next_run, LocalDT.weekday, weekdayOf,
      LocalDT.replaceHM, LocalDT.shiftD]
    split_ifs <;> intros <;> omega

/-- Witness for `add_weekly_task_spec`: now is a Thursday (day number 3)
at 10:00 and the task is for Wednesday (day 2) at 9:30 — the run lands
on day 9, next week's Wednesday, 6 days ahead. -/
theorem add_weekly_task_spec_witness :
    TaskScheduler.add_weekly_task [] "w" 2 9 30 "UTC" ⟨3, 10, 0, 0, 0⟩
      = [] ++ [⟨"w", "weekly", some 2, 9, 30, "UTC",
          add_weekly_task_next_run ⟨3, 10, 0, 0, 0⟩ 2 9 30, true⟩] ∧
    (add_weekly_task_next_run ⟨3, 10, 0, 0, 0⟩ 2 9 30).weekday = 2 ∧
    (add_weekly_task_next_run ⟨3, 10, 0, 0, 0⟩ 2 9 30).day
        - (⟨3, 10, 0, 0, 0⟩ : LocalDT).day
      = 2 - (⟨3, 10, 0, 0, 0⟩ : LocalDT).weekday + 7 := by
  have h := add_weekly_task_spec [] "w" 2 9 30 "UTC" ⟨3, 10, 0, 0, 0⟩
    (by norm_num) (by norm_num)
  exact ⟨h.1, h.2.1, h.2.2.2.2.2.2.2.2.2 (by decide)⟩

/-! ### Timezone conversion (C1) -/

/-- **C1, counterexample.** When the instant's attached zone differs
from `from_tz` and the two offsets differ, the `replace(tzinfo=from_tz)`
step moves the absolute moment: with a zone database giving `"B"` offset
+3600 s and `"A"` offset 0, converting the instant tagged `"A"` at
timestamp 0 "from" `"B"` yields timestamp -3600, not 0. -/
theorem convert_timezone_claim_counterexample :
    (convert_timezone (fun n => if n = "B" then 3600 else 0)
        ⟨0, "A"⟩ "B" "UTC").timestamp
      ≠ (⟨0, "A"⟩ : TZInstant).timestamp := by
  decide

/-- **C1, amended.** `convert_timezone` preserves `timestamp()` whenever
the instant's attached zone has the same UTC offset as `from_tz` — in
particular whenever the instant is already tagged `from_tz`; when the
offsets differ, the re-tagging step shifts the timestamp by the offset
difference. -/
theorem convert_timezone_preserves_timestamp (off : String → Int)
    (dt : TZInstant) (from_tz to_tz : String)
    (h : off dt.tzName = off from_tz) :
    (convert_timezone off dt from_tz to_tz).timestamp = dt.timestamp := by
  simp only [convert_timezone, TZInstant.toTz, TZInstant.replaceTz, TZInstant.timestamp]
  split_ifs with hne
  · show dt.ts + off dt.tzName - off from_tz = dt.ts
    omega
  · rfl

/-- Witness for `convert_timezone_preserves_timestamp`: an instant
tagged `UTC` converted from `UTC` to `Asia/Tokyo` keeps its
timestamp. -/
theorem convert_timezone_preserves_timestamp_witness :
    (convert_timezone (fun n => if n = "Asia/Tokyo" then 32400 else 0)
        ⟨5, "UTC"⟩ "UTC" "Asia/Tokyo").timestamp
      = (⟨5, "UTC"⟩ : TZInstant).timestamp :=
  convert_timezone_preserves_timestamp
    (fun n => if n = "Asia/Tokyo" then 32400 else 0) ⟨5, "UTC"⟩ "UTC" "Asia/Tokyo" rfl

/-! ### Association-list dict lemmas -/

/-- Unfolding `List.lookup` at a cons cell into a propositional `if`. -/
theorem lookup_cons (a k b : String) (l : List (String × String)) :
    ((k, b) :: l).lookup a = if a = k then some b else l.lookup a := by
  by_cases h : a = k
  · subst h
    simp [List.lookup]
  · have hb : (a == k) = false := beq_eq_false_iff_ne.mpr h
    simp [List.lookup, hb, h]

/-- The overwrite function of `dictInsert` applied to one entry. -/
theorem overwrite_apply (k v a b : String) :
    (if ((a, b).1 == k) = true then (k, v) else (a, b))
      = if a = k then (k, v) else (a, b) := by
  by_cases h : a = k <;> simp [h]

/-- Overwriting key `k` leaves lookups of other keys unchanged. -/
theorem lookup_map_overwrite (m : List (String × String)) (k v tz : String)
    (h : tz ≠ k) :
    (m.map (fun p => if p.1 == k then (k, v) else p)).lookup tz = m.lookup tz := by
  induction m with
  | nil => rfl
  | cons p tl ih =>
    obtain ⟨a, b⟩ := p
    rw [List.map_cons, overwrite_apply]
    by_cases hp : a = k
    · have hta : tz ≠ a := fun he => h (he.trans hp)
      rw [if_pos hp, lookup_cons, lookup_cons, if_neg h, if_neg hta, ih]
    · rw [if_neg hp, lookup_cons, lookup_cons]
      by_cases hta : tz = a
      · rw [if_pos hta, if_pos hta]
      · rw [if_neg hta, if_neg hta, ih]

/-- Overwriting a present key `k` makes its lookup the new value. -/
theorem lookup_map_overwrite_self (m : List (String × String)) (k v : String)
    (h : m.any (fun p => p.1 == k) = true) :
    (m.map (fun p => if p.1 == k then (k, v) else p)).lookup k = some v := by
  induction m with
  | nil => simp at h
  | cons p tl ih =>
    obtain ⟨a, b⟩ := p
    rw [List.map_cons, overwrite_apply]
    by_cases hp : a = k
    · rw [if_pos hp, lookup_cons, if_pos rfl]
    · rw [if_neg hp, lookup_cons, if_neg (Ne.symm hp)]
      apply ih
      simp only [List.any_cons, Bool.or_eq_true] at h
      rcases h with h | h
      · exact absurd (by simpa using h) hp
      · exact h

/-- Appending a fresh key makes its lookup the new value. -/
theorem lookup_append_new (m : List (String × String)) (k v : String)
    (h : m.any (fun p => p.1 == k) = false) :
    (m ++ [(k, v)]).lookup k = some v := by
  induction m with
  | nil => rw [List.nil_append, lookup_cons, if_pos rfl]
  | cons p tl ih =>
    obtain ⟨a, b⟩ := p
    simp only [List.any_cons, Bool.or_eq_false_iff, beq_eq_false_iff_ne] at h
    rw [List.cons_append, lookup_cons, if_neg (Ne.symm h.1)]
    exact ih h.2

/-- Appending an entry leaves lookups of other keys unchanged. -/
theorem lookup_append_other (m : List (String × String)) (k v tz : String)
    (h : tz ≠ k) :
    (m ++ [(k, v)]).lookup tz = m.lookup tz := by
  induction m with
  | nil =>
    rw [List.nil_append, lookup_cons, if_neg h]
  | cons p tl ih =>
    obtain ⟨a, b⟩ := p
    rw [List.cons_append, lookup_cons, lookup_cons]
    by_cases hta : tz = a
    · rw [if_pos hta, if_pos hta]
    · rw [if_neg hta, if_neg hta, ih]

/-- Dict assignment: the assigned key now maps to the assigned value. -/
theorem dictInsert_lookup_self (m : List (String × String)) (k v : String) :
    (dictInsert m k v).lookup k = some v := by
  unfold dictInsert
  split_ifs with hany
  · exact lookup_map_overwrite_self m k v hany
  · exact lookup_append_new m k v (Bool.eq_false_iff.mpr hany)

/-- Dict assignment: other keys are unaffected. -/
theorem dictInsert_lookup_other (m : List (String × String)) (k v tz : String)
    (h : tz ≠ k) :
    (dictInsert m k v).lookup tz = m.lookup tz := by
  unfold dictInsert
  split_ifs with hany
  · exact lookup_map_overwrite m k v tz h
  · exact lookup_append_other m k v tz h

/-- Dict assignment on the key list: unchanged when present, appended
when fresh. -/
theorem dictInsert_keys (m : List (String × String)) (k v : String) :
    (dictInsert m k v).map Prod.fst
      = if m.any (fun p => p.1 == k) then m.map Prod.fst
        else m.map Prod.fst ++ [k] := by
  unfold dictInsert
  split_ifs with hany
  · rw [List.map_map]
    apply List.map_congr_left
    intro p _
    obtain ⟨a, b⟩ := p
    by_cases hp : a = k <;> simp [Function.comp, hp]
  · simp

/-- Dict assignment keeps keys distinct. -/
theorem dictInsert_keys_nodup (m : List (String × String)) (k v : String)
    (h : (m.map Prod.fst).Nodup) :
    ((dictInsert m k v).map Prod.fst).Nodup := by
  rw [dictInsert_keys]
  split_ifs with hany
  · exact h
  · have hk : k ∉ m.map Prod.fst := by
      intro hmem
      obtain ⟨p, hp, hpk⟩ := List.mem_map.mp hmem
      have : m.any (fun p => p.1 == k) = true :=
        List.any_eq_true.mpr ⟨p, hp, by simp [hpk]⟩
      exact hany this
    simp [List.nodup_append, h, hk]

/-- Membership in the keys after a dict assignment. -/
theorem dictInsert_mem_keys (m : List (String × String)) (k v tz : String) :
    tz ∈ (dictInsert m k v).map Prod.fst ↔ tz = k ∨ tz ∈ m.map Prod.fst := by
  rw [dictInsert_keys]
  split_ifs with hany
  · have hk : k ∈ m.map Prod.fst := by
      obtain ⟨p, hp, hpk⟩ := List.any_eq_true.mp hany
      exact List.mem_map.mpr ⟨p, hp, by simpa using hpk⟩
    constructor
    · exact Or.inr
    · rintro (rfl | hmem)
      · exact hk
      · exact hmem
  · simp [or_comm]

/-! ### get_world_times (C9) -/

/-- Both branches of the `try`/`except` store exactly `worldVal`. -/
theorem worldStep_eq (off : String → Option Int) (fmt : Int → Int → String)
    (errStr : String → String) (ts : Int) (m : List (String × String))
    (tz : String) :
    worldStep off fmt errStr ts m tz = dictInsert m tz (worldVal off fmt errStr ts tz) := by
  cases h : off tz <;> simp [worldStep, worldVal, h]

/-- Invariant of the `get_world_times` loop over any accumulator with
distinct keys: keys stay distinct, the final keys are the old ones plus
the processed zones, every processed zone maps to its `worldVal`, and
unprocessed keys keep their values. -/
theorem world_foldl_spec (off : String → Option Int) (fmt : Int → Int → String)
    (errStr : String → String) (ts : Int) (l : List String) :
    ∀ acc : List (String × String), (acc.map Prod.fst).Nodup →
      ((l.foldl (worldStep off fmt errStr ts) acc).map Prod.fst).Nodup ∧
      (∀ tz : String, tz ∈ (l.foldl (worldStep off fmt errStr ts) acc).map Prod.fst ↔
          tz ∈ acc.map Prod.fst ∨ tz ∈ l) ∧
      (∀ tz ∈ l, (l.foldl (worldStep off fmt errStr ts) acc).lookup tz
          = some (worldVal off fmt errStr ts tz)) ∧
      (∀ tz : String, tz ∉ l →
        (l.foldl (worldStep off fmt errStr ts) acc).lookup tz = acc.lookup tz) := by
  induction l with
  | nil =>
    intro acc hacc
    exact ⟨hacc, by simp, by simp, fun tz _ => rfl⟩
  | cons t l ih =>
    intro acc hacc
    have hacc' : ((dictInsert acc t (worldVal off fmt errStr ts t)).map Prod.fst).Nodup :=
      dictInsert_keys_nodup acc t _ hacc
    obtain ⟨n1, n2, n3, n4⟩ := ih (dictInsert acc t (worldVal off fmt errStr ts t)) hacc'
    rw [List.foldl_cons, worldStep_eq]
    refine ⟨n1, ?_, ?_, ?_⟩
    · intro tz
      rw [n2 tz, dictInsert_mem_keys]
      simp only [List.mem_cons]
      tauto
    · intro tz htz
      rcases List.mem_cons.mp htz with rfl | hmem
      · by_cases hl : tz ∈ l
        · exact n3 tz hl
        · rw [n4 tz hl, dictInsert_lookup_self]
      · exact n3 tz hmem
    · intro tz htz
      have ht : tz ≠ t := fun he => htz (he ▸ List.mem_cons_self t l)
      have hl : tz ∉ l := fun hm => htz (List.mem_cons_of_mem t hm)
      rw [n4 tz hl, dictInsert_lookup_other acc t _ tz ht]

/-- **C9.** `world_times` returns a map with one entry per requested
zone (keys are distinct and are exactly the requested zones); a zone the
database resolves maps to the formatted local time of the same instant,
and a zone whose conversion fails maps to the `"Error: ..."` string, the
rest of the batch unaffected. -/
theorem get_world_times_spec (off : String → Option Int)
    (fmt : Int → Int → String) (errStr : String → String) (ts : Int)
    (timezones : List String) :
    ((get_world_times off fmt errStr ts timezones).map Prod.fst).Nodup ∧
    (∀ tz : String,
      tz ∈ (get_world_times off fmt errStr ts timezones).map Prod.fst ↔ tz ∈ timezones) ∧
    (∀ tz ∈ timezones,
      (get_world_times off fmt errStr ts timezones).lookup tz
        = some (worldVal off fmt errStr ts tz)) ∧
    (∀ tz : String, ∀ o : Int, off tz = some o →
      worldVal off fmt errStr ts tz = fmt ts o) ∧
    (∀ tz : String, off tz = none →
      worldVal off fmt errStr ts tz = "Error: " ++ errStr tz) := by
  obtain ⟨n1, n2, n3, _⟩ :=
    world_foldl_spec off fmt errStr ts timezones [] (by simp)
  simp only [get_world_times]
  refine ⟨n1, ?_, n3, ?_, ?_⟩
  · intro tz
    rw [n2 tz]
    simp
  · intro tz o h
    simp [worldVal, h]
  · intro tz h
    simp [worldVal, h]

/-- Witness for `get_world_times_spec` on `["UTC", "Nope"]` where the
database only knows `UTC`: both entries are present, the valid one
formatted, the invalid one an error string. -/
theorem get_world_times_spec_witness :
    ((get_world_times (fun n => if n = "UTC" then some 0 else none)
        (fun _ _ => "noon") (fun tz => tz) 0 ["UTC", "Nope"]).map Prod.fst).Nodup ∧
    (get_world_times (fun n => if n = "UTC" then some 0 else none)
        (fun _ _ => "noon") (fun tz => tz) 0 ["UTC", "Nope"]).lookup "UTC"
      = some "noon" ∧
    (get_world_times (fun n => if n = "UTC" then some 0 else none)
        (fun _ _ => "noon") (fun tz => tz) 0 ["UTC", "Nope"]).lookup "Nope"
      = some ("Error: " ++ "Nope") := by
  have h := get_world_times_spec (fun n => if n = "UTC" then some 0 else none)
    (fun _ _ => "noon") (fun tz => tz) 0 ["UTC", "Nope"]
  refine ⟨h.1, ?_, ?_⟩
  · rw [h.2.2.1 "UTC" (by simp)]
    rfl
  · rw [h.2.2.1 "Nope" (by simp)]
    rfl

/-! ### DateFormatter (C7) -/

/-- A key's lookup is `none` exactly when the key is absent. -/
theorem lookup_eq_none_keys (m : List (String × String)) (k : String) :
    m.lookup k = none ↔ k ∉ m.map Prod.fst := by
  induction m with
  | nil => simp
  | cons p tl ih =>
    obtain ⟨a, b⟩ := p
    rw [lookup_cons]
    by_cases hk : k = a
    · simp [hk]
    · rw [if_neg hk]
      simp [hk, ih]

/-- **C7.** `format` fails with the unknown-template error exactly when
the name is absent from the registry; `add_template` inserts or
overwrites, after which the name is present and `format` uses the new
pattern; a fresh `DateFormatter` is pre-seeded with exactly the names
short, long, time, datetime, iso, filename, log, display. -/
theorem date_formatter_spec (fmt : Int → String → String) (dt : Int) :
    (∀ f : DateFormatter, ∀ name : String,
      f.templates.lookup name = none →
        f.format fmt dt name = Except.error ("Unknown template: " ++ name)) ∧
    (∀ f : DateFormatter, ∀ name p : String,
      f.templates.lookup name = some p →
        f.format fmt dt name = Except.ok (fmt dt p)) ∧
    (∀ f : DateFormatter, ∀ name : String,
      f.templates.lookup name = none ↔ name ∉ f.list_templates) ∧
    (∀ f : DateFormatter, ∀ name p : String,
      (f.add_template name p).templates.lookup name = some p ∧
      (f.add_template name p).format fmt dt name = Except.ok (fmt dt p) ∧
      name ∈ (f.add_template name p).list_templates) ∧
    DateFormatter.new.list_templates
      = ["short", "long", "time", "datetime", "iso", "filename", "log", "display"] := by
  refine ⟨?_, ?_, ?_, ?_, rfl⟩
  · intro f name h
    simp [DateFormatter.format, h]
  · intro f name p h
    simp [DateFormatter.format, h]
  · intro f name
    exact lookup_eq_none_keys f.templates name
  · intro f name p
    have hl : (f.add_template name p).templates.lookup name = some p :=
      dictInsert_lookup_self f.templates name p
    refine ⟨hl, by simp [DateFormatter.format, hl], ?_⟩
    by_contra hmem
    have hn := (lookup_eq_none_keys (f.add_template name p).templates name).mpr hmem
    rw [hn] at hl
    cases hl

/-- Witness for `date_formatter_spec`: on a fresh formatter, `"nope"`
errors, `"short"` formats with its default pattern, and after
`add_template("nope", "X")` the new name formats with `"X"`. -/
theorem date_formatter_spec_witness :
    DateFormatter.new.format (fun _ p => p) 0 "nope"
      = Except.error ("Unknown template: " ++ "nope") ∧
    DateFormatter.new.format (fun _ p => p) 0 "short" = Except.ok "YYYY-MM-DD" ∧
    (DateFormatter.new.add_template "nope" "X").format (fun _ p => p) 0 "nope"
      = Except.ok "X" := by
  have h := date_formatter_spec (fun _ p => p) 0
  exact ⟨h.1 DateFormatter.new "nope" rfl,
    h.2.1 DateFormatter.new "short" "YYYY-MM-DD" rfl,
    (h.2.2.2.1 DateFormatter.new "nope" "X").2.1⟩

end ArrowShowcase
